import Mathlib

/-!
Shallow embedding of the fedify delivery and resolution core.

Part 1: the inbox target resolver (`extractInboxes`, src/federation/send.ts)
and the signing and delivery pipeline (`sendActivity`, src/federation/send.ts).

Part 2: the generated reference-resolver accessors, transcribed from the
code-generation templates in src/codegen/property.ts.
-/

namespace Fedify

/-- A URL, modelled by the two projections the delivery code reads:
its exact string form (`href`) and its origin (scheme+host+port). -/
structure Url where
  href : String
  origin : String
deriving DecidableEq, Repr

/-- A recipient, as read by `extractInboxes`: identity (`id`), personal
inbox (`inboxId`), and the optional shared inbox (`endpoints?.sharedInbox`,
the absent-`endpoints` and absent-`sharedInbox` cases collapsed into one
`Option` as the optional-chaining does). -/
structure Recipient where
  id : Option Url
  inboxId : Option Url
  sharedInbox : Option Url
deriving DecidableEq, Repr

/-- Deduplicating insertion into the value set of an inbox-target entry,
modelling `Set.add` on `Set<string>`. -/
def addIdentity (ids : List String) (idHref : String) : List String :=
  if idHref ∈ ids then ids else ids ++ [idHref]

/-- Insertion into the inbox target map (`Record<string, Set<string>>`),
modelling `inboxes[inbox.href] ??= new Set(); inboxes[inbox.href].add(...)`:
keys are exact URL strings in first-insertion order. -/
def insertInbox : List (String × List String) → String → String → List (String × List String)
  | [], inboxHref, idHref => [(inboxHref, [idHref])]
  | (k, ids) :: rest, inboxHref, idHref =>
    if k = inboxHref then (k, addIdentity ids idHref) :: rest
    else (k, ids) :: insertInbox rest inboxHref idHref

/-- One loop iteration of `extractInboxes` (src/federation/send.ts lines 46-60). -/
def extractStep (preferSharedInbox : Bool) (excludeBaseUris : Option (List Url))
    (inboxes : List (String × List String)) (recipient : Recipient) :
    List (String × List String) :=
  let inbox := if preferSharedInbox
    then (match recipient.sharedInbox with
          | some sh => some sh
          | none => recipient.inboxId)
    else recipient.inboxId
  match inbox, recipient.id with
  | some ib, some rid =>
    if (match excludeBaseUris with
        | none => false
        | some us => us.any (fun u => u.origin == ib.origin)) then
      inboxes
    else
      insertInbox inboxes ib.href rid.href
  | _, _ => inboxes

/-- `extractInboxes` (src/federation/send.ts lines 42-62): folds the loop
body over the recipients, starting from the empty map. -/
def extractInboxes (recipients : List Recipient) (preferSharedInbox : Bool)
    (excludeBaseUris : Option (List Url)) : List (String × List String) :=
  recipients.foldl (extractStep preferSharedInbox excludeBaseUris) []

/-- The chosen inbox of a recipient, following the spec text: shared inbox
if preferred and present, else the personal inbox. -/
def chosenInbox (preferSharedInbox : Bool) (recipient : Recipient) : Option Url :=
  if preferSharedInbox ∧ recipient.sharedInbox.isSome then recipient.sharedInbox
  else recipient.inboxId

/-- Origin-based exclusion, following the spec text: the chosen inbox is
excluded when its origin equals the origin of any exclusion URL. -/
def excludedByOrigin (excludeBaseUris : Option (List Url)) (inbox : Url) : Prop :=
  ∃ us, excludeBaseUris = some us ∧ ∃ u ∈ us, u.origin = inbox.origin

instance (excl : Option (List Url)) (ib : Url) : Decidable (excludedByOrigin excl ib) := by
  unfold excludedByOrigin
  cases excl with
  | none => exact .isFalse (by simp)
  | some us => exact decidable_of_iff (∃ u ∈ us, u.origin = ib.origin) (by simp)

/-- Reference definition of the inbox target resolver, written from the
spec words in section 4.1: per recipient, choose the inbox, skip on a
missing inbox or identity, skip on an origin match with an exclusion URL,
otherwise insert the identity under the exact inbox URL string. -/
def extractInboxesSpec (preferSharedInbox : Bool) (excludeBaseUris : Option (List Url)) :
    List Recipient → List (String × List String) → List (String × List String)
  | [], acc => acc
  | r :: rest, acc =>
    match chosenInbox preferSharedInbox r, r.id with
    | none, _ => extractInboxesSpec preferSharedInbox excludeBaseUris rest acc
    | some _, none => extractInboxesSpec preferSharedInbox excludeBaseUris rest acc
    | some ib, some rid =>
      if excludedByOrigin excludeBaseUris ib then
        extractInboxesSpec preferSharedInbox excludeBaseUris rest acc
      else
        extractInboxesSpec preferSharedInbox excludeBaseUris rest
          (insertInbox acc ib.href rid.href)

theorem chosenInbox_eq (pref : Bool) (r : Recipient) :
    chosenInbox pref r =
      (if pref then (match r.sharedInbox with
                     | some sh => some sh
                     | none => r.inboxId)
       else r.inboxId) := by
  unfold chosenInbox
  cases pref <;> cases h : r.sharedInbox <;> simp [h]

theorem excludedByOrigin_bool (excl : Option (List Url)) (ib : Url) :
    (match excl with
     | none => false
     | some us => us.any (fun u => u.origin == ib.origin)) = true ↔
      excludedByOrigin excl ib := by
  cases excl with
  | none => simp [excludedByOrigin]
  | some us => simp [excludedByOrigin, List.any_eq_true, beq_iff_eq]

theorem extractStep_eq_specStep (pref : Bool) (excl : Option (List Url))
    (acc : List (String × List String)) (r : Recipient) :
    extractStep pref excl acc r =
      (match chosenInbox pref r, r.id with
       | none, _ => acc
       | some _, none => acc
       | some ib, some rid =>
         if excludedByOrigin excl ib then acc
         else insertInbox acc ib.href rid.href) := by
  unfold extractStep
  rw [chosenInbox_eq]
  cases hib : (if pref then (match r.sharedInbox with
                             | some sh => some sh
                             | none => r.inboxId)
               else r.inboxId) with
  | none => simp
  | some ib =>
    cases hid : r.id with
    | none => simp
    | some rid =>
      simp only
      by_cases hex : excludedByOrigin excl ib
      · rw [if_pos ((excludedByOrigin_bool excl ib).mpr hex), if_pos hex]
      · rw [if_neg (fun hc => hex ((excludedByOrigin_bool excl ib).mp hc)),
          if_neg hex]

theorem extractInboxes_foldl_spec (pref : Bool) (excl : Option (List Url)) :
    ∀ (rs : List Recipient) (acc : List (String × List String)),
      rs.foldl (extractStep pref excl) acc = extractInboxesSpec pref excl rs acc := by
  intro rs
  induction rs with
  | nil => intro acc; rfl
  | cons r rest ih =>
    intro acc
    rw [List.foldl_cons, ih, extractInboxesSpec]
    rw [extractStep_eq_specStep]
    cases hci : chosenInbox pref r with
    | none => rfl
    | some ib =>
      cases hid : r.id with
      | none => rfl
      | some rid =>
        by_cases hex : excludedByOrigin excl ib <;> simp [hex]

/-- C4: `extractInboxes` equals its reference definition: per recipient the
chosen inbox is the shared inbox when preferred and present, else the personal
inbox; recipients lacking an inbox or identity are skipped; recipients whose
chosen inbox has the origin of some exclusion URL are skipped; the rest insert
their identity, deduplicated, under the exact inbox URL string, merging
identical URL strings and keeping distinct URLs of equal origin separate. -/
theorem C4_extractInboxes_eq_spec (recipients : List Recipient)
    (preferSharedInbox : Bool) (excludeBaseUris : Option (List Url)) :
    extractInboxes recipients preferSharedInbox excludeBaseUris =
      extractInboxesSpec preferSharedInbox excludeBaseUris recipients [] :=
  extractInboxes_foldl_spec preferSharedInbox excludeBaseUris recipients []

/-- A WebCrypto key, modelled by the two attributes the pipeline reads:
`algorithm.name` and the key type (purpose). -/
structure CryptoKey where
  alg : String
  keyType : String
deriving DecidableEq, Repr

/-- A sender key pair (`SenderKeyPair`, src/federation/send.ts): the private
key together with the URL (href) identifying the public key. -/
structure SenderKeyPair where
  keyId : String
  privateKey : CryptoKey
deriving DecidableEq, Repr

/-- An outbound activity, modelled by the attributes `sendActivity` reads
and writes: `id` and `actorId` (hrefs), plus the list of integrity proofs
attached so far (identified by the signing key id). -/
structure Activity where
  id : Option String
  actorId : Option String
  proofs : List String
deriving DecidableEq, Repr

/-- Modelled from the spec: `validateCryptoKey` (src/sig/key.ts, not among
the given sources) checks that the key has the required purpose and a
supported algorithm, a failure being fatal.  The supported-set membership
test `checkAlg` is kept abstract because the spec fixes the closed set of
algorithms only up to containing at minimum the RSA signing scheme and
Ed25519. -/
def validateCryptoKey (checkAlg : String → Bool) (key : CryptoKey)
    (purpose : String) : Bool :=
  key.keyType == purpose && checkAlg key.alg

/-- Modelled from the spec: `signObject` (src/sig/proof.ts, not among the
given sources) attaches one Integrity Proof to the object for the given
Ed25519 key; proofs accumulate as the object is threaded through. -/
def signObject (a : Activity) (keyId : String) : Activity :=
  { a with proofs := a.proofs ++ [keyId] }

/-- A Linked-Data Signature envelope: the signing key id and the list of
integrity proofs present in the document it covers. -/
structure LdSignature where
  keyId : String
  signedProofs : List String
deriving DecidableEq, Repr

/-- A compacted JSON-LD document produced from an activity: its id, the
integrity proofs embedded in it, and an optional Linked-Data Signature. -/
structure JsonLdDoc where
  activityId : String
  proofs : List String
  ldSignature : Option LdSignature
deriving DecidableEq, Repr

/-- Modelled from the spec: `activity.toJsonLd({format: "compact"})`
(generated vocabulary code, not among the given sources) serializes the
possibly proof-bearing message to a compacted document, embedding the
attached proofs; no signature envelope is present yet. -/
def toJsonLd (a : Activity) (activityId : String) : JsonLdDoc :=
  { activityId := activityId, proofs := a.proofs, ldSignature := none }

/-- Modelled from the spec: `signJsonLd` (src/sig/ld.ts, not among the
given sources) wraps the compacted document in a Linked-Data Signature
envelope keyed by the given key, covering the document as given, its
embedded proofs included. -/
def signJsonLd (d : JsonLdDoc) (keyId : String) : JsonLdDoc :=
  { d with ldSignature := some { keyId := keyId, signedProofs := d.proofs } }

/-- An HTTP message signature: the signing key id and the body it covers
(the body at signing time, the document-layer signatures included). -/
structure HttpSignature where
  keyId : String
  signedBody : JsonLdDoc
deriving DecidableEq, Repr

/-- An outbound HTTP request as built by `sendActivity`. -/
structure Request where
  url : String
  method : String
  headers : List (String × String)
  body : JsonLdDoc
  httpSignature : Option HttpSignature
deriving DecidableEq, Repr

/-- Modelled from the spec: `signRequest` (src/sig/http.ts, not among the
given sources) applies a transport-level message signature over the already
built request, keyed by the given key, covering the request body as sent. -/
def signRequest (req : Request) (keyId : String) : Request :=
  { req with httpSignature := some { keyId := keyId, signedBody := req.body } }

/-- ASCII lowercasing of a header name, for case-insensitive matching. -/
def lowerName (s : String) : String :=
  String.mk (s.data.map Char.toLower)

/-- WHATWG `Headers.set` semantics: remove every header whose name matches
case-insensitively, then append the new pair. -/
def headersSet (hs : List (String × String)) (name value : String) :
    List (String × String) :=
  hs.filter (fun p => lowerName p.1 != lowerName name) ++ [(name, value)]

/-- An HTTP response, modelled by the attributes `sendActivity` reads:
status, status text, and the result of reading the body as text (`none`
models a body whose read fails). -/
structure FetchResponse where
  status : Nat
  statusText : String
  bodyText : Option String
deriving DecidableEq, Repr

/-- `Response.ok`: status in the 2xx range. -/
def responseOk (r : FetchResponse) : Bool :=
  decide (200 ≤ r.status) && decide (r.status < 300)

/-- Observable events of one `sendActivity` run, in program order: key
validation, the three signing layers, the warnings for missing keys, the
single network send (carrying the request as sent), and the error log on a
failed delivery. -/
inductive Event where
  | validateKey (keyId : String)
  | signProof (keyId : String)
  | warnNoLdSig
  | signLd (keyId : String)
  | warnNoProof
  | warnNoHttpSig
  | signHttp (keyId : String)
  | fetchReq (req : Request)
  | logError (activityId : String) (inbox : String) (status : Nat)
      (statusText : String) (body : String)
deriving DecidableEq, Repr

/-- Errors thrown by `sendActivity`: the pre-I/O `TypeError`s on a missing
id, missing actor, or empty key list; the key-validation failure (modelled
from the spec); and the delivery error on a non-2xx response, carrying the
activity id, inbox URL, status, status text, and body text. -/
inductive SendError where
  | validationFailure (msg : String)
  | keyValidationFailure (keyId : String)
  | deliveryFailure (activityId : String) (inbox : String) (status : Nat)
      (statusText : String) (body : String)
deriving DecidableEq, Repr

/-- The key loop of `sendActivity` (src/federation/send.ts lines 147-162):
validate each key; capture the first RSASSA-PKCS1-v1_5 key as the RSA
signer; attach one integrity proof per Ed25519 key, threading the activity
through; skip every other key.  Returns the trace of events together with
the updated activity, the captured RSA signer, and the proof flag. -/
def signLoop (checkAlg : String → Bool) :
    List SenderKeyPair → Activity → Option SenderKeyPair → Bool →
    List Event × Except SendError (Activity × Option SenderKeyPair × Bool)
  | [], a, rsaKey, proofCreated => ([], .ok (a, rsaKey, proofCreated))
  | k :: rest, a, rsaKey, proofCreated =>
    if !validateCryptoKey checkAlg k.privateKey "private" then
      ([Event.validateKey k.keyId], .error (.keyValidationFailure k.keyId))
    else if rsaKey.isNone && (k.privateKey.alg == "RSASSA-PKCS1-v1_5") then
      let (tr, res) := signLoop checkAlg rest a (some k) proofCreated
      (Event.validateKey k.keyId :: tr, res)
    else if k.privateKey.alg == "Ed25519" then
      let (tr, res) := signLoop checkAlg rest (signObject a k.keyId) rsaKey true
      (Event.validateKey k.keyId :: Event.signProof k.keyId :: tr, res)
    else
      let (tr, res) := signLoop checkAlg rest a rsaKey proofCreated
      (Event.validateKey k.keyId :: tr, res)

/-- `sendActivity` (src/federation/send.ts lines 125-248), as a function
from the inputs and the (externally determined) HTTP response to the event
trace and the outcome.  The document loaders are reachable only from inside
the signing, serialization, and fetch events, so an empty trace means no
I/O of any kind. -/
def sendActivity (checkAlg : String → Bool) (activity : Activity)
    (keys : List SenderKeyPair) (inbox : String)
    (headers : List (String × String)) (response : FetchResponse) :
    List Event × Except SendError Unit :=
  match activity.id with
  | none =>
    ([], .error (.validationFailure "The activity to send must have an id."))
  | some activityId =>
    if activity.actorId.isNone then
      ([], .error (.validationFailure
        "The activity to send must have at least one actor property."))
    else if keys.length < 1 then
      ([], .error (.validationFailure "The keys must not be empty."))
    else
      match signLoop checkAlg keys activity none false with
      | (t1, .error e) => (t1, .error e)
      | (t1, .ok (act, rsaKey, proofCreated)) =>
        let jsonLd0 := toJsonLd act activityId
        let (t2, jsonLd) := match rsaKey with
          | none => ([Event.warnNoLdSig], jsonLd0)
          | some k => ([Event.signLd k.keyId], signJsonLd jsonLd0 k.keyId)
        let t3 := if proofCreated then [] else [Event.warnNoProof]
        let req0 : Request :=
          { url := inbox, method := "POST",
            headers := headersSet headers "Content-Type"
              "application/activity+json",
            body := jsonLd, httpSignature := none }
        let (t4, req) := match rsaKey with
          | none => ([Event.warnNoHttpSig], req0)
          | some k => ([Event.signHttp k.keyId], signRequest req0 k.keyId)
        if responseOk response then
          (t1 ++ t2 ++ t3 ++ t4 ++ [Event.fetchReq req], .ok ())
        else
          let errBody := response.bodyText.getD ""
          (t1 ++ t2 ++ t3 ++ t4 ++ [Event.fetchReq req] ++
            [Event.logError activityId inbox response.status
              response.statusText errBody],
           .error (.deliveryFailure activityId inbox response.status
             response.statusText errBody))

/-- Whether a key pair carries an Ed25519 private key. -/
def isEdKey (k : SenderKeyPair) : Bool :=
  k.privateKey.alg == "Ed25519"

/-- Whether a key pair carries an RSASSA-PKCS1-v1_5 private key. -/
def isRsaKey (k : SenderKeyPair) : Bool :=
  k.privateKey.alg == "RSASSA-PKCS1-v1_5"

/-- The key ids of the Ed25519 keys, in input order. -/
def edKeyIds (keys : List SenderKeyPair) : List String :=
  (keys.filter isEdKey).map (fun k => k.keyId)

/-- The first RSASSA-PKCS1-v1_5 key in input order, when present. -/
def firstRsaKey (keys : List SenderKeyPair) : Option SenderKeyPair :=
  keys.find? isRsaKey

/-- The RSA signer after the loop: the signer captured before it, else the
first RSA key among the remaining keys. -/
def rsaResult (rsaKey : Option SenderKeyPair) (keys : List SenderKeyPair) :
    Option SenderKeyPair :=
  match rsaKey with
  | some k => some k
  | none => firstRsaKey keys

/-- The events one key contributes to the loop trace: its validation,
followed by an integrity-proof signing exactly when it is an Ed25519 key. -/
def perKeyTrace (k : SenderKeyPair) : List Event :=
  Event.validateKey k.keyId ::
    (if isEdKey k then [Event.signProof k.keyId] else [])

/-- The full trace of the key loop when every key validates. -/
def loopTrace : List SenderKeyPair → List Event
  | [] => []
  | k :: rest => perKeyTrace k ++ loopTrace rest

theorem signLoop_eq (checkAlg : String → Bool) (keys : List SenderKeyPair) :
    ∀ (a : Activity) (rsaKey : Option SenderKeyPair) (proofCreated : Bool),
    (∀ k ∈ keys, validateCryptoKey checkAlg k.privateKey "private" = true) →
    signLoop checkAlg keys a rsaKey proofCreated =
      (loopTrace keys,
       .ok ({ a with proofs := a.proofs ++ edKeyIds keys },
            rsaResult rsaKey keys,
            proofCreated || keys.any isEdKey)) := by
  induction keys with
  | nil =>
    intro a r p _
    cases r <;> simp [signLoop, loopTrace, edKeyIds, rsaResult, firstRsaKey]
  | cons k rest ih =>
    intro a r p hv
    have hk : validateCryptoKey checkAlg k.privateKey "private" = true :=
      hv k (by simp)
    have hrest : ∀ k' ∈ rest, validateCryptoKey checkAlg k'.privateKey "private" = true :=
      fun k' hk' => hv k' (by simp [hk'])
    rw [signLoop, hk]
    by_cases hrsa : isRsaKey k = true
    · have hed : isEdKey k = false := by
        have halg : k.privateKey.alg = "RSASSA-PKCS1-v1_5" := by
          simpa [isRsaKey] using hrsa
        simp [isEdKey, halg]
      have hrsa' : (k.privateKey.alg == "RSASSA-PKCS1-v1_5") = true := by
        simpa [isRsaKey] using hrsa
      have hed' : (k.privateKey.alg == "Ed25519") = false := by
        simpa [isEdKey] using hed
      cases r with
      | none =>
        rw [if_neg (by simp), if_pos (by simp [hrsa']), ih a (some k) p hrest]
        simp [loopTrace, perKeyTrace, hed, edKeyIds, rsaResult, firstRsaKey,
          List.find?_cons, hrsa, hrsa', List.filter_cons, List.any_cons, hed',
          isRsaKey]
      | some k0 =>
        rw [if_neg (by simp), if_neg (by simp [Option.isNone]),
          if_neg (by simp [hed']), ih a (some k0) p hrest]
        simp [loopTrace, perKeyTrace, hed, edKeyIds, rsaResult,
          List.filter_cons, List.any_cons, hed']
    · have hrsa' : (k.privateKey.alg == "RSASSA-PKCS1-v1_5") = false := by
        simpa [isRsaKey] using hrsa
      have hrsaf : isRsaKey k = false := by simpa using hrsa
      rw [if_neg (by simp), if_neg (by simp [hrsa'])]
      by_cases hed : isEdKey k = true
      · have hed' : (k.privateKey.alg == "Ed25519") = true := by
          simpa [isEdKey] using hed
        rw [if_pos hed', ih (signObject a k.keyId) r true hrest]
        cases r with
        | none =>
          simp [loopTrace, perKeyTrace, hed, edKeyIds, List.filter_cons,
            rsaResult, firstRsaKey, List.find?_cons, hrsaf, List.any_cons,
            signObject, List.append_assoc, hed']
        | some k0 =>
          simp [loopTrace, perKeyTrace, hed, edKeyIds, List.filter_cons,
            rsaResult, List.any_cons, signObject, List.append_assoc, hed']
      · have hed' : (k.privateKey.alg == "Ed25519") = false := by
          simpa [isEdKey] using hed
        have hedf : isEdKey k = false := by simpa using hed
        rw [if_neg (by simp [hed']), ih a r p hrest]
        cases r with
        | none =>
          simp [loopTrace, perKeyTrace, hedf, edKeyIds, List.filter_cons,
            rsaResult, firstRsaKey, List.find?_cons, hrsaf, List.any_cons]
        | some k0 =>
          simp [loopTrace, perKeyTrace, hedf, edKeyIds, List.filter_cons,
            rsaResult, List.any_cons]

/-- The serialized document as finally sent: the compacted activity document
carrying one integrity proof per Ed25519 key (appended to any pre-existing
proofs), wrapped in a Linked-Data Signature keyed by the first RSA key when
one exists. -/
def builtDoc (activityId : String) (proofs0 : List String)
    (keys : List SenderKeyPair) : JsonLdDoc :=
  let d0 : JsonLdDoc :=
    { activityId := activityId, proofs := proofs0 ++ edKeyIds keys,
      ldSignature := none }
  match firstRsaKey keys with
  | none => d0
  | some k => signJsonLd d0 k.keyId

/-- The request as finally sent: POST to the inbox, caller headers with the
Content-Type forced, the signed document as body, and a transport signature
keyed by the first RSA key when one exists. -/
def builtRequest (activityId : String) (proofs0 : List String)
    (keys : List SenderKeyPair) (inbox : String)
    (headers : List (String × String)) : Request :=
  let req0 : Request :=
    { url := inbox, method := "POST",
      headers := headersSet headers "Content-Type" "application/activity+json",
      body := builtDoc activityId proofs0 keys, httpSignature := none }
  match firstRsaKey keys with
  | none => req0
  | some k => signRequest req0 k.keyId

/-- The Linked-Data Signature step trace: a signing event keyed by the first
RSA key, or the warning when none exists. -/
def ldSigTrace (keys : List SenderKeyPair) : List Event :=
  match firstRsaKey keys with
  | none => [Event.warnNoLdSig]
  | some k => [Event.signLd k.keyId]

/-- The missing-proof warning trace: a warning exactly when no Ed25519 key
is present. -/
def proofWarnTrace (keys : List SenderKeyPair) : List Event :=
  if keys.any isEdKey then [] else [Event.warnNoProof]

/-- The transport-signature step trace: a signing event keyed by the first
RSA key, or the warning when none exists. -/
def httpSigTrace (keys : List SenderKeyPair) : List Event :=
  match firstRsaKey keys with
  | none => [Event.warnNoHttpSig]
  | some k => [Event.signHttp k.keyId]

/-- The post-send trace: empty on success, the error log on failure. -/
def deliveryTrace (activityId inbox : String) (resp : FetchResponse) :
    List Event :=
  if responseOk resp then []
  else [Event.logError activityId inbox resp.status resp.statusText
    (resp.bodyText.getD "")]

/-- The outcome of a completed send: success on 2xx, the delivery error
otherwise. -/
def sendOutcome (activityId inbox : String) (resp : FetchResponse) :
    Except SendError Unit :=
  if responseOk resp then .ok ()
  else .error (.deliveryFailure activityId inbox resp.status resp.statusText
    (resp.bodyText.getD ""))

theorem sendActivity_normal (checkAlg : String → Bool) (act : Activity)
    (keys : List SenderKeyPair) (inbox : String)
    (headers : List (String × String)) (resp : FetchResponse) (aid : String)
    (hid : act.id = some aid) (hactor : act.actorId.isSome = true)
    (hne : keys ≠ [])
    (hv : ∀ k ∈ keys, validateCryptoKey checkAlg k.privateKey "private" = true) :
    sendActivity checkAlg act keys inbox headers resp =
      (loopTrace keys ++ ldSigTrace keys ++ proofWarnTrace keys ++
         httpSigTrace keys ++
         [Event.fetchReq (builtRequest aid act.proofs keys inbox headers)] ++
         deliveryTrace aid inbox resp,
       sendOutcome aid inbox resp) := by
  unfold sendActivity
  rw [hid]
  have hlen : ¬ keys.length < 1 := by
    simpa [Nat.lt_one_iff, List.length_eq_zero] using hne
  have hactF : act.actorId.isNone = false := by
    cases h : act.actorId with
    | none => rw [h] at hactor; simp at hactor
    | some _ => rfl
  simp only [hactF, Bool.false_eq_true, if_false]
  rw [if_neg hlen, signLoop_eq checkAlg keys act none false hv]
  simp only [rsaResult, Bool.false_or]
  cases hr : firstRsaKey keys with
  | none =>
    cases hok : responseOk resp <;>
      simp [builtRequest, builtDoc, ldSigTrace, proofWarnTrace, httpSigTrace,
        deliveryTrace, sendOutcome, toJsonLd, hr, hok, List.append_assoc]
  | some k =>
    cases hok : responseOk resp <;>
      simp [builtRequest, builtDoc, ldSigTrace, proofWarnTrace, httpSigTrace,
        deliveryTrace, sendOutcome, toJsonLd, signJsonLd, signRequest, hr, hok,
        List.append_assoc]

/-- Whether an event is a key validation. -/
def isValidateEvent : Event → Bool
  | .validateKey _ => true
  | _ => false

/-- Whether an event is a signing operation of any of the three layers. -/
def isSigningEvent : Event → Bool
  | .signProof _ => true
  | .signLd _ => true
  | .signHttp _ => true
  | _ => false

/-- The requests handed to the HTTP transport, in order. -/
def fetchedRequests (tr : List Event) : List Request :=
  tr.filterMap (fun e => match e with | .fetchReq r => some r | _ => none)

/-- The first (and in fact only) request handed to the HTTP transport. -/
def sentRequest (tr : List Event) : Option Request :=
  (fetchedRequests tr).head?

theorem loopTrace_events (keys : List SenderKeyPair) :
    ∀ e ∈ loopTrace keys,
      (∃ kid, e = Event.validateKey kid) ∨ ∃ kid, e = Event.signProof kid := by
  induction keys with
  | nil => intro e he; simp [loopTrace] at he
  | cons k rest ih =>
    intro e he
    rw [loopTrace, List.mem_append] at he
    cases he with
    | inl h =>
      rw [perKeyTrace, List.mem_cons] at h
      cases h with
      | inl h => exact .inl ⟨k.keyId, h⟩
      | inr h =>
        cases hed : isEdKey k with
        | true => rw [hed] at h; simp at h; exact .inr ⟨k.keyId, h⟩
        | false => rw [hed] at h; simp at h
    | inr h => exact ih e h

theorem fetchedRequests_loopTrace (keys : List SenderKeyPair) :
    fetchedRequests (loopTrace keys) = [] := by
  rw [fetchedRequests, List.filterMap_eq_nil]
  intro e he
  rcases loopTrace_events keys e he with ⟨kid, rfl⟩ | ⟨kid, rfl⟩ <;> rfl

theorem fetchedRequests_append (t1 t2 : List Event) :
    fetchedRequests (t1 ++ t2) = fetchedRequests t1 ++ fetchedRequests t2 := by
  simp [fetchedRequests]

theorem fetchedRequests_sendActivity (checkAlg : String → Bool)
    (act : Activity) (keys : List SenderKeyPair) (inbox : String)
    (headers : List (String × String)) (resp : FetchResponse) (aid : String)
    (hid : act.id = some aid) (hactor : act.actorId.isSome = true)
    (hne : keys ≠ [])
    (hv : ∀ k ∈ keys, validateCryptoKey checkAlg k.privateKey "private" = true) :
    fetchedRequests (sendActivity checkAlg act keys inbox headers resp).1 =
      [builtRequest aid act.proofs keys inbox headers] := by
  rw [sendActivity_normal checkAlg act keys inbox headers resp aid hid hactor hne hv]
  simp only [fetchedRequests_append, fetchedRequests_loopTrace]
  cases hr : firstRsaKey keys <;> cases hok : responseOk resp <;>
    simp [ldSigTrace, proofWarnTrace, httpSigTrace, deliveryTrace,
      fetchedRequests, hr, hok] <;>
    cases keys.any isEdKey <;> simp

theorem edKeyIds_eq_nil (keys : List SenderKeyPair)
    (h : keys.any isEdKey = false) : edKeyIds keys = [] := by
  rw [edKeyIds, List.map_eq_nil, List.filter_eq_nil]
  intro k hk
  intro hc
  rw [List.any_eq_false] at h
  exact h k hk hc

/-- C1: with every key validating, `sendActivity` layers the signatures
strictly: one integrity proof per Ed25519 key in input order is embedded in
the serialized document, the first RSA key (when present) keys both the
Linked-Data Signature over the proof-bearing document and the transport
signature over the signed body, a missing RSA or Ed25519 key yields the
corresponding warnings and unsigned layers without an error, and the output
depends only on the Ed25519 keys and the first RSA key, so later RSA keys
and keys of other supported algorithms leave the request and outcome
unchanged. -/
theorem C1_sendActivity_signature_layers (checkAlg : String → Bool)
    (act : Activity) (keys : List SenderKeyPair) (inbox : String)
    (headers : List (String × String)) (resp : FetchResponse) (aid : String)
    (hid : act.id = some aid) (hactor : act.actorId.isSome = true)
    (hne : keys ≠ [])
    (hv : ∀ k ∈ keys, validateCryptoKey checkAlg k.privateKey "private" = true) :
    sentRequest (sendActivity checkAlg act keys inbox headers resp).1 =
      some (builtRequest aid act.proofs keys inbox headers) ∧
    (builtRequest aid act.proofs keys inbox headers).body.proofs =
      act.proofs ++ edKeyIds keys ∧
    (∀ k, firstRsaKey keys = some k →
      (builtRequest aid act.proofs keys inbox headers).body.ldSignature =
        some { keyId := k.keyId, signedProofs := act.proofs ++ edKeyIds keys } ∧
      (builtRequest aid act.proofs keys inbox headers).httpSignature =
        some { keyId := k.keyId,
               signedBody := (builtRequest aid act.proofs keys inbox headers).body }) ∧
    (firstRsaKey keys = none →
      (builtRequest aid act.proofs keys inbox headers).body.ldSignature = none ∧
      (builtRequest aid act.proofs keys inbox headers).httpSignature = none ∧
      Event.warnNoLdSig ∈ (sendActivity checkAlg act keys inbox headers resp).1 ∧
      Event.warnNoHttpSig ∈ (sendActivity checkAlg act keys inbox headers resp).1) ∧
    (keys.any isEdKey = false →
      (builtRequest aid act.proofs keys inbox headers).body.proofs = act.proofs ∧
      Event.warnNoProof ∈ (sendActivity checkAlg act keys inbox headers resp).1) ∧
    ((sendActivity checkAlg act keys inbox headers resp).2 = .ok () ∨
      ∃ st stx b, (sendActivity checkAlg act keys inbox headers resp).2 =
        .error (.deliveryFailure aid inbox st stx b)) ∧
    (∀ keys2, keys2 ≠ [] →
      (∀ k ∈ keys2, validateCryptoKey checkAlg k.privateKey "private" = true) →
      edKeyIds keys2 = edKeyIds keys → firstRsaKey keys2 = firstRsaKey keys →
      sentRequest (sendActivity checkAlg act keys2 inbox headers resp).1 =
        some (builtRequest aid act.proofs keys inbox headers) ∧
      (sendActivity checkAlg act keys2 inbox headers resp).2 =
        (sendActivity checkAlg act keys inbox headers resp).2) := by
  have hfetch := fetchedRequests_sendActivity checkAlg act keys inbox headers
    resp aid hid hactor hne hv
  have hnorm := sendActivity_normal checkAlg act keys inbox headers resp aid
    hid hactor hne hv
  refine ⟨?_, ?_, ?_, ?_, ?_, ?_, ?_⟩
  · rw [sentRequest, hfetch]; rfl
  · cases hr : firstRsaKey keys <;>
      simp [builtRequest, builtDoc, signJsonLd, signRequest, hr]
  · intro k hk
    simp [builtRequest, builtDoc, signJsonLd, signRequest, hk]
  · intro hr
    rw [hnorm]
    simp [builtRequest, builtDoc, ldSigTrace, httpSigTrace, hr]
  · intro hed
    have hnil := edKeyIds_eq_nil keys hed
    constructor
    · cases hr : firstRsaKey keys <;>
        simp [builtRequest, builtDoc, signJsonLd, signRequest, hr, hnil]
    · rw [hnorm]
      simp [proofWarnTrace, hed]
  · rw [hnorm]
    simp only [sendOutcome]
    cases hok : responseOk resp with
    | true => exact .inl (by simp)
    | false =>
      exact .inr ⟨resp.status, resp.statusText, resp.bodyText.getD "", by simp⟩
  · intro keys2 hne2 hv2 hed2 hr2
    have hnorm2 := sendActivity_normal checkAlg act keys2 inbox headers resp
      aid hid hactor hne2 hv2
    have hfetch2 := fetchedRequests_sendActivity checkAlg act keys2 inbox
      headers resp aid hid hactor hne2 hv2
    have hreq : builtRequest aid act.proofs keys2 inbox headers =
        builtRequest aid act.proofs keys inbox headers := by
      rw [builtRequest, builtRequest, builtDoc, builtDoc, hed2, hr2]
    constructor
    · rw [sentRequest, hfetch2, hreq]; rfl
    · rw [hnorm2, hnorm]

/-- C2: when the activity id is missing, the actor attribution is missing,
or the key list is empty, `sendActivity` produces an empty event trace (so
neither the document loader nor the HTTP transport is reached) and fails
with the corresponding validation error. -/
theorem C2_sendActivity_precondition_no_io (checkAlg : String → Bool)
    (act : Activity) (keys : List SenderKeyPair) (inbox : String)
    (headers : List (String × String)) (resp : FetchResponse)
    (h : act.id = none ∨ act.actorId = none ∨ keys = []) :
    (sendActivity checkAlg act keys inbox headers resp).1 = [] ∧
    ∃ msg, (sendActivity checkAlg act keys inbox headers resp).2 =
      .error (.validationFailure msg) := by
  rcases h with h | h | h
  · simp [sendActivity, h]
  · cases hid : act.id with
    | none => simp [sendActivity, hid]
    | some aid => simp [sendActivity, hid, h]
  · subst h
    cases hid : act.id with
    | none => simp [sendActivity, hid]
    | some aid =>
      cases hact : act.actorId with
      | none => simp [sendActivity, hid, hact]
      | some who => simp [sendActivity, hid, hact]

theorem pair_sublist_append {α : Type} {a b : α} {l1 l2 : List α}
    (ha : a ∈ l1) (hb : b ∈ l2) : List.Sublist [a, b] (l1 ++ l2) := by
  have h := List.Sublist.append (List.singleton_sublist.mpr ha)
    (List.singleton_sublist.mpr hb)
  simpa using h

theorem validateKey_mem_loopTrace (keys : List SenderKeyPair)
    (k : SenderKeyPair) (hk : k ∈ keys) :
    Event.validateKey k.keyId ∈ loopTrace keys := by
  induction keys with
  | nil => simp at hk
  | cons k0 rest ih =>
    rw [loopTrace, List.mem_append]
    rcases List.mem_cons.mp hk with rfl | h
    · exact .inl (by simp [perKeyTrace])
    · exact .inr (ih h)

theorem signProof_sublist_loopTrace (keys : List SenderKeyPair) (kid : String)
    (h : Event.signProof kid ∈ loopTrace keys) :
    List.Sublist [Event.validateKey kid, Event.signProof kid]
      (loopTrace keys) := by
  induction keys with
  | nil => simp [loopTrace] at h
  | cons k rest ih =>
    rw [loopTrace] at h ⊢
    rcases List.mem_append.mp h with h1 | h2
    · rw [perKeyTrace] at h1
      rcases List.mem_cons.mp h1 with he | h1
      · exact absurd he (by simp)
      · cases hed : isEdKey k with
        | false => rw [hed] at h1; simp at h1
        | true =>
          rw [hed] at h1
          have hkid : kid = k.keyId := by simpa using h1
          subst hkid
          have hpk : perKeyTrace k =
              [Event.validateKey k.keyId, Event.signProof k.keyId] := by
            simp [perKeyTrace, hed]
          rw [hpk]
          exact List.sublist_append_left _ _
    · exact List.Sublist.trans (ih h2) (List.sublist_append_right _ _)

theorem mem_ldSigTrace {keys : List SenderKeyPair} {e : Event}
    (h : e ∈ ldSigTrace keys) :
    e = Event.warnNoLdSig ∨
      ∃ k, firstRsaKey keys = some k ∧ e = Event.signLd k.keyId := by
  cases hr : firstRsaKey keys with
  | none => rw [ldSigTrace, hr] at h; exact .inl (by simpa using h)
  | some k => rw [ldSigTrace, hr] at h; exact .inr ⟨k, rfl, by simpa using h⟩

theorem mem_proofWarnTrace {keys : List SenderKeyPair} {e : Event}
    (h : e ∈ proofWarnTrace keys) : e = Event.warnNoProof := by
  rw [proofWarnTrace] at h
  split at h
  · simp at h
  · simpa using h

theorem mem_httpSigTrace {keys : List SenderKeyPair} {e : Event}
    (h : e ∈ httpSigTrace keys) :
    e = Event.warnNoHttpSig ∨
      ∃ k, firstRsaKey keys = some k ∧ e = Event.signHttp k.keyId := by
  cases hr : firstRsaKey keys with
  | none => rw [httpSigTrace, hr] at h; exact .inl (by simpa using h)
  | some k => rw [httpSigTrace, hr] at h; exact .inr ⟨k, rfl, by simpa using h⟩

theorem mem_deliveryTrace {aid inbox : String} {resp : FetchResponse}
    {e : Event} (h : e ∈ deliveryTrace aid inbox resp) :
    e = Event.logError aid inbox resp.status resp.statusText
      (resp.bodyText.getD "") := by
  rw [deliveryTrace] at h
  split at h
  · simp at h
  · simpa using h

/-- The trace tail after the key loop, in right-associated form. -/
def afterLoopTrace (keys : List SenderKeyPair) (aid inbox : String)
    (resp : FetchResponse) (R : Request) : List Event :=
  ldSigTrace keys ++ (proofWarnTrace keys ++ (httpSigTrace keys ++
    ([Event.fetchReq R] ++ deliveryTrace aid inbox resp)))

theorem mem_afterLoopTrace {keys : List SenderKeyPair} {aid inbox : String}
    {resp : FetchResponse} {R : Request} {e : Event}
    (h : e ∈ afterLoopTrace keys aid inbox resp R) :
    e = Event.warnNoLdSig ∨ e = Event.warnNoProof ∨ e = Event.warnNoHttpSig ∨
    e = Event.fetchReq R ∨
    (∃ k, firstRsaKey keys = some k ∧ e = Event.signLd k.keyId) ∨
    (∃ k, firstRsaKey keys = some k ∧ e = Event.signHttp k.keyId) ∨
    e = Event.logError aid inbox resp.status resp.statusText
      (resp.bodyText.getD "") := by
  rw [afterLoopTrace] at h
  rcases List.mem_append.mp h with h | h
  · rcases mem_ldSigTrace h with h | h
    · exact .inl h
    · exact .inr (.inr (.inr (.inr (.inl h))))
  rcases List.mem_append.mp h with h | h
  · exact .inr (.inl (mem_proofWarnTrace h))
  rcases List.mem_append.mp h with h | h
  · rcases mem_httpSigTrace h with h | h
    · exact .inr (.inr (.inl h))
    · exact .inr (.inr (.inr (.inr (.inr (.inl h)))))
  rcases List.mem_append.mp h with h | h
  · exact .inr (.inr (.inr (.inl (by simpa using h))))
  · exact .inr (.inr (.inr (.inr (.inr (.inr (mem_deliveryTrace h))))))

theorem sendActivity_trace_split (checkAlg : String → Bool) (act : Activity)
    (keys : List SenderKeyPair) (inbox : String)
    (headers : List (String × String)) (resp : FetchResponse) (aid : String)
    (hid : act.id = some aid) (hactor : act.actorId.isSome = true)
    (hne : keys ≠ [])
    (hv : ∀ k ∈ keys, validateCryptoKey checkAlg k.privateKey "private" = true) :
    (sendActivity checkAlg act keys inbox headers resp).1 =
      loopTrace keys ++ afterLoopTrace keys aid inbox resp
        (builtRequest aid act.proofs keys inbox headers) := by
  rw [sendActivity_normal checkAlg act keys inbox headers resp aid hid hactor
    hne hv, afterLoopTrace]
  simp [List.append_assoc]

/-- A sample supported-algorithm test: the minimal closed set. -/
def chkSample : String → Bool :=
  fun a => a == "RSASSA-PKCS1-v1_5" || a == "Ed25519"

/-- A sample Ed25519 private key. -/
def edPriv : CryptoKey := { alg := "Ed25519", keyType := "private" }

/-- A sample RSASSA-PKCS1-v1_5 private key. -/
def rsaPriv : CryptoKey := { alg := "RSASSA-PKCS1-v1_5", keyType := "private" }

/-- A sample valid outbound activity. -/
def actSample : Activity :=
  { id := some "https://e.example/a1", actorId := some "https://e.example/actor",
    proofs := [] }

/-- A sample accepted (2xx) response. -/
def respAccepted : FetchResponse :=
  { status := 202, statusText := "Accepted", bodyText := some "" }

/-- A sample key list: an Ed25519 key followed by an RSA key. -/
def keysEdRsa : List SenderKeyPair :=
  [{ keyId := "https://e.example/key1", privateKey := edPriv },
   { keyId := "https://e.example/key2", privateKey := rsaPriv }]

/-- C3 counterexample: with an Ed25519 key followed by an RSA key, the
integrity-proof signing with the first key sits at index 1 of the event
trace, strictly before the validation of the second key at index 2, so a
signing operation does precede the validation of a key in the list,
contradicting the claim that every key is validated before any signing. -/
theorem C3_counterexample :
    (sendActivity chkSample actSample keysEdRsa "https://remote.example/inbox"
        [] respAccepted).1[1]? =
      some (Event.signProof "https://e.example/key1") ∧
    (sendActivity chkSample actSample keysEdRsa "https://remote.example/inbox"
        [] respAccepted).1[2]? =
      some (Event.validateKey "https://e.example/key2") ∧
    isSigningEvent (Event.signProof "https://e.example/key1") = true ∧
    isValidateEvent (Event.validateKey "https://e.example/key2") = true := by
  refine ⟨?_, ?_, rfl, rfl⟩ <;> rfl

/-- C3 (amended): every key is validated before the key loop ends and in
particular before the Linked-Data, transport, and network operations, and
every signing operation with a given key is preceded in the trace by the
validation of that same key; however, integrity-proof signing with an
earlier Ed25519 key happens before the validation of keys appearing later
in the list (see the counterexample). -/
theorem C3_amended_validation_precedes_use (checkAlg : String → Bool)
    (act : Activity) (keys : List SenderKeyPair) (inbox : String)
    (headers : List (String × String)) (resp : FetchResponse) (aid : String)
    (hid : act.id = some aid) (hactor : act.actorId.isSome = true)
    (hne : keys ≠ [])
    (hv : ∀ k ∈ keys, validateCryptoKey checkAlg k.privateKey "private" = true) :
    (∀ kid, Event.signProof kid ∈
        (sendActivity checkAlg act keys inbox headers resp).1 →
      List.Sublist [Event.validateKey kid, Event.signProof kid]
        (sendActivity checkAlg act keys inbox headers resp).1) ∧
    (∀ kid, Event.signLd kid ∈
        (sendActivity checkAlg act keys inbox headers resp).1 →
      List.Sublist [Event.validateKey kid, Event.signLd kid]
        (sendActivity checkAlg act keys inbox headers resp).1) ∧
    (∀ kid, Event.signHttp kid ∈
        (sendActivity checkAlg act keys inbox headers resp).1 →
      List.Sublist [Event.validateKey kid, Event.signHttp kid]
        (sendActivity checkAlg act keys inbox headers resp).1) ∧
    (∀ kid r, Event.validateKey kid ∈
        (sendActivity checkAlg act keys inbox headers resp).1 →
      Event.fetchReq r ∈ (sendActivity checkAlg act keys inbox headers resp).1 →
      List.Sublist [Event.validateKey kid, Event.fetchReq r]
        (sendActivity checkAlg act keys inbox headers resp).1) ∧
    (∀ kid kid2, Event.validateKey kid ∈
        (sendActivity checkAlg act keys inbox headers resp).1 →
      Event.signLd kid2 ∈ (sendActivity checkAlg act keys inbox headers resp).1 →
      List.Sublist [Event.validateKey kid, Event.signLd kid2]
        (sendActivity checkAlg act keys inbox headers resp).1) ∧
    (∀ kid kid2, Event.validateKey kid ∈
        (sendActivity checkAlg act keys inbox headers resp).1 →
      Event.signHttp kid2 ∈
        (sendActivity checkAlg act keys inbox headers resp).1 →
      List.Sublist [Event.validateKey kid, Event.signHttp kid2]
        (sendActivity checkAlg act keys inbox headers resp).1) := by
  have hsplit := sendActivity_trace_split checkAlg act keys inbox headers resp
    aid hid hactor hne hv
  rw [hsplit]
  refine ⟨?_, ?_, ?_, ?_, ?_, ?_⟩
  · intro kid hm
    rcases List.mem_append.mp hm with hm | hm
    · exact List.Sublist.trans (signProof_sublist_loopTrace keys kid hm)
        (List.sublist_append_left _ _)
    · rcases mem_afterLoopTrace hm with h | h | h | h | ⟨k, _, h⟩ | ⟨k, _, h⟩ | h <;>
        simp at h
  · intro kid hm
    rcases List.mem_append.mp hm with hm | hm
    · rcases loopTrace_events keys _ hm with ⟨k0, h⟩ | ⟨k0, h⟩ <;> simp at h
    · rcases mem_afterLoopTrace hm with h | h | h | h | ⟨k, hk, h⟩ | ⟨k, _, h⟩ | h
      · simp at h
      · simp at h
      · simp at h
      · simp at h
      · have hkid : kid = k.keyId := by simpa using h
        subst hkid
        have hkmem : k ∈ keys := List.mem_of_find?_eq_some hk
        exact pair_sublist_append (validateKey_mem_loopTrace keys k hkmem) hm
      · simp at h
      · simp at h
  · intro kid hm
    rcases List.mem_append.mp hm with hm | hm
    · rcases loopTrace_events keys _ hm with ⟨k0, h⟩ | ⟨k0, h⟩ <;> simp at h
    · rcases mem_afterLoopTrace hm with h | h | h | h | ⟨k, _, h⟩ | ⟨k, hk, h⟩ | h
      · simp at h
      · simp at h
      · simp at h
      · simp at h
      · simp at h
      · have hkid : kid = k.keyId := by simpa using h
        subst hkid
        have hkmem : k ∈ keys := List.mem_of_find?_eq_some hk
        exact pair_sublist_append (validateKey_mem_loopTrace keys k hkmem) hm
      · simp at h
  · intro kid r hmv hmf
    have hmv' : Event.validateKey kid ∈ loopTrace keys := by
      rcases List.mem_append.mp hmv with hm | hm
      · exact hm
      · rcases mem_afterLoopTrace hm with h | h | h | h | ⟨k, _, h⟩ | ⟨k, _, h⟩ | h <;>
          simp at h
    have hmf' : Event.fetchReq r ∈ afterLoopTrace keys aid inbox resp
        (builtRequest aid act.proofs keys inbox headers) := by
      rcases List.mem_append.mp hmf with hm | hm
      · rcases loopTrace_events keys _ hm with ⟨k0, h⟩ | ⟨k0, h⟩ <;> simp at h
      · exact hm
    exact pair_sublist_append hmv' hmf'
  · intro kid kid2 hmv hml
    have hmv' : Event.validateKey kid ∈ loopTrace keys := by
      rcases List.mem_append.mp hmv with hm | hm
      · exact hm
      · rcases mem_afterLoopTrace hm with h | h | h | h | ⟨k, _, h⟩ | ⟨k, _, h⟩ | h <;>
          simp at h
    have hml' : Event.signLd kid2 ∈ afterLoopTrace keys aid inbox resp
        (builtRequest aid act.proofs keys inbox headers) := by
      rcases List.mem_append.mp hml with hm | hm
      · rcases loopTrace_events keys _ hm with ⟨k0, h⟩ | ⟨k0, h⟩ <;> simp at h
      · exact hm
    exact pair_sublist_append hmv' hml'
  · intro kid kid2 hmv hmh
    have hmv' : Event.validateKey kid ∈ loopTrace keys := by
      rcases List.mem_append.mp hmv with hm | hm
      · exact hm
      · rcases mem_afterLoopTrace hm with h | h | h | h | ⟨k, _, h⟩ | ⟨k, _, h⟩ | h <;>
          simp at h
    have hmh' : Event.signHttp kid2 ∈ afterLoopTrace keys aid inbox resp
        (builtRequest aid act.proofs keys inbox headers) := by
      rcases List.mem_append.mp hmh with hm | hm
      · rcases loopTrace_events keys _ hm with ⟨k0, h⟩ | ⟨k0, h⟩ <;> simp at h
      · exact hm
    exact pair_sublist_append hmv' hmh'

/-- C8: a completed send succeeds with no value exactly when the response
status is 2xx; otherwise it logs at error severity and throws a delivery
error carrying the activity id, the inbox URL, the status code and status
text, and the body text (the empty string when the body is unreadable);
exactly one request is ever handed to the transport, so the failure is
neither suppressed nor retried. -/
theorem C8_sendActivity_delivery (checkAlg : String → Bool) (act : Activity)
    (keys : List SenderKeyPair) (inbox : String)
    (headers : List (String × String)) (resp : FetchResponse) (aid : String)
    (hid : act.id = some aid) (hactor : act.actorId.isSome = true)
    (hne : keys ≠ [])
    (hv : ∀ k ∈ keys, validateCryptoKey checkAlg k.privateKey "private" = true) :
    ((200 ≤ resp.status ∧ resp.status < 300) ↔
      (sendActivity checkAlg act keys inbox headers resp).2 = .ok ()) ∧
    (¬ (200 ≤ resp.status ∧ resp.status < 300) →
      (sendActivity checkAlg act keys inbox headers resp).2 =
        .error (.deliveryFailure aid inbox resp.status resp.statusText
          (resp.bodyText.getD "")) ∧
      Event.logError aid inbox resp.status resp.statusText
        (resp.bodyText.getD "") ∈
        (sendActivity checkAlg act keys inbox headers resp).1 ∧
      (resp.bodyText = none →
        (sendActivity checkAlg act keys inbox headers resp).2 =
          .error (.deliveryFailure aid inbox resp.status resp.statusText ""))) ∧
    (fetchedRequests (sendActivity checkAlg act keys inbox headers resp).1).length
      = 1 := by
  have hnorm := sendActivity_normal checkAlg act keys inbox headers resp aid
    hid hactor hne hv
  have hok : responseOk resp = true ↔ (200 ≤ resp.status ∧ resp.status < 300) := by
    simp [responseOk]
  refine ⟨?_, ?_, ?_⟩
  · rw [hnorm]
    simp only [sendOutcome]
    constructor
    · intro h
      rw [if_pos (hok.mpr h)]
    · intro h
      by_cases hr : responseOk resp = true
      · exact hok.mp hr
      · rw [if_neg hr] at h
        exact absurd h (by simp)
  · intro h
    have hr : responseOk resp = false := by
      cases hq : responseOk resp
      · rfl
      · exact absurd (hok.mp hq) h
    rw [hnorm]
    refine ⟨?_, ?_, ?_⟩
    · simp [sendOutcome, hr]
    · simp [deliveryTrace, hr]
    · intro hb
      simp [sendOutcome, hr, hb]
  · rw [fetchedRequests_sendActivity checkAlg act keys inbox headers resp aid
      hid hactor hne hv]
    rfl

/-- C10: the request handed to the transport always carries the
Content-Type header `application/activity+json`: any caller-supplied
Content-Type (under case-insensitive header-name matching) is overwritten,
while every caller-supplied header of a different name is preserved. -/
theorem C10_content_type_forced (checkAlg : String → Bool) (act : Activity)
    (keys : List SenderKeyPair) (inbox : String)
    (headers : List (String × String)) (resp : FetchResponse) (aid : String)
    (hid : act.id = some aid) (hactor : act.actorId.isSome = true)
    (hne : keys ≠ [])
    (hv : ∀ k ∈ keys, validateCryptoKey checkAlg k.privateKey "private" = true) :
    ∃ req, sentRequest (sendActivity checkAlg act keys inbox headers resp).1 =
        some req ∧
      ("Content-Type", "application/activity+json") ∈ req.headers ∧
      (∀ p ∈ req.headers, lowerName p.1 = "content-type" →
        p.2 = "application/activity+json") ∧
      (∀ p ∈ headers, lowerName p.1 ≠ "content-type" → p ∈ req.headers) := by
  refine ⟨builtRequest aid act.proofs keys inbox headers, ?_, ?_, ?_, ?_⟩
  · rw [sentRequest, fetchedRequests_sendActivity checkAlg act keys inbox
      headers resp aid hid hactor hne hv]
    rfl
  · have hh : (builtRequest aid act.proofs keys inbox headers).headers =
        headersSet headers "Content-Type" "application/activity+json" := by
      cases hr : firstRsaKey keys <;>
        simp [builtRequest, signRequest, hr]
    rw [hh, headersSet]
    exact List.mem_append_right _ (by simp)
  · have hh : (builtRequest aid act.proofs keys inbox headers).headers =
        headersSet headers "Content-Type" "application/activity+json" := by
      cases hr : firstRsaKey keys <;>
        simp [builtRequest, signRequest, hr]
    rw [hh, headersSet]
    intro p hp hlow
    rcases List.mem_append.mp hp with hp | hp
    · have hcond := List.of_mem_filter hp
      rw [bne_iff_ne] at hcond
      exact absurd (hlow.trans (by decide)) hcond
    · have : p = ("Content-Type", "application/activity+json") := by simpa using hp
      rw [this]
  · have hh : (builtRequest aid act.proofs keys inbox headers).headers =
        headersSet headers "Content-Type" "application/activity+json" := by
      cases hr : firstRsaKey keys <;>
        simp [builtRequest, signRequest, hr]
    rw [hh, headersSet]
    intro p hp hlow
    refine List.mem_append_left _ (List.mem_filter_of_mem hp ?_)
    rw [bne_iff_ne]
    intro hc
    exact hlow (hc.trans (by decide))

/-- A sample key list extending `keysEdRsa` with a second, later RSA key. -/
def keysEdRsaExtra : List SenderKeyPair :=
  keysEdRsa ++ [{ keyId := "https://e.example/key3", privateKey := rsaPriv }]

/-- A sample activity with no id. -/
def actNoId : Activity :=
  { id := none, actorId := some "https://e.example/actor", proofs := [] }

/-- A sample failing response with body text. -/
def resp500 : FetchResponse :=
  { status := 500, statusText := "Internal Server Error", bodyText := some "boom" }

/-- A sample caller header list carrying a conflicting Content-Type. -/
def hdrsSample : List (String × String) :=
  [("content-type", "text/plain"), ("X-Extra", "1")]

theorem C1_witness :
    sentRequest (sendActivity chkSample actSample keysEdRsa
        "https://remote.example/inbox" [] respAccepted).1 =
      some (builtRequest "https://e.example/a1" [] keysEdRsa
        "https://remote.example/inbox" []) ∧
    (builtRequest "https://e.example/a1" [] keysEdRsa
        "https://remote.example/inbox" []).body.proofs =
      ["https://e.example/key1"] ∧
    sentRequest (sendActivity chkSample actSample keysEdRsaExtra
        "https://remote.example/inbox" [] respAccepted).1 =
      some (builtRequest "https://e.example/a1" [] keysEdRsa
        "https://remote.example/inbox" []) := by
  have h := C1_sendActivity_signature_layers chkSample actSample keysEdRsa
    "https://remote.example/inbox" [] respAccepted "https://e.example/a1"
    rfl rfl (by decide) (by decide)
  refine ⟨h.1, h.2.1.trans (by decide), ?_⟩
  exact (h.2.2.2.2.2.2 keysEdRsaExtra (by decide) (by decide) (by decide)
    (by decide)).1

theorem C2_witness :
    (sendActivity chkSample actNoId keysEdRsa "https://remote.example/inbox"
      [] respAccepted).1 = [] ∧
    ∃ msg, (sendActivity chkSample actNoId keysEdRsa
      "https://remote.example/inbox" [] respAccepted).2 =
        .error (.validationFailure msg) :=
  C2_sendActivity_precondition_no_io chkSample actNoId keysEdRsa
    "https://remote.example/inbox" [] respAccepted (Or.inl rfl)

theorem C3_amended_witness :
    List.Sublist
      [Event.validateKey "https://e.example/key1",
       Event.signProof "https://e.example/key1"]
      (sendActivity chkSample actSample keysEdRsa
        "https://remote.example/inbox" [] respAccepted).1 :=
  (C3_amended_validation_precedes_use chkSample actSample keysEdRsa
      "https://remote.example/inbox" [] respAccepted "https://e.example/a1"
      rfl rfl (by decide) (by decide)).1
    "https://e.example/key1" (by decide)

theorem C8_witness :
    (sendActivity chkSample actSample keysEdRsa "https://remote.example/inbox"
        [] resp500).2 =
      .error (.deliveryFailure "https://e.example/a1"
        "https://remote.example/inbox" 500 "Internal Server Error" "boom") ∧
    (fetchedRequests (sendActivity chkSample actSample keysEdRsa
        "https://remote.example/inbox" [] resp500).1).length = 1 := by
  have h := C8_sendActivity_delivery chkSample actSample keysEdRsa
    "https://remote.example/inbox" [] resp500 "https://e.example/a1"
    rfl rfl (by decide) (by decide)
  exact ⟨(h.2.1 (by decide)).1, h.2.2⟩

theorem C10_witness :
    ("Content-Type", "application/activity+json") ∈
      (builtRequest "https://e.example/a1" [] keysEdRsa
        "https://remote.example/inbox" hdrsSample).headers ∧
    ("X-Extra", "1") ∈
      (builtRequest "https://e.example/a1" [] keysEdRsa
        "https://remote.example/inbox" hdrsSample).headers ∧
    ("content-type", "text/plain") ∉
      (builtRequest "https://e.example/a1" [] keysEdRsa
        "https://remote.example/inbox" hdrsSample).headers := by
  obtain ⟨req, h1, h2, h3, h4⟩ := C10_content_type_forced chkSample actSample
    keysEdRsa "https://remote.example/inbox" hdrsSample respAccepted
    "https://e.example/a1" rfl rfl (by decide) (by decide)
  have hs : sentRequest (sendActivity chkSample actSample keysEdRsa
      "https://remote.example/inbox" hdrsSample respAccepted).1 =
      some (builtRequest "https://e.example/a1" [] keysEdRsa
        "https://remote.example/inbox" hdrsSample) := by
    rw [sentRequest, fetchedRequests_sendActivity chkSample actSample keysEdRsa
      "https://remote.example/inbox" hdrsSample respAccepted
      "https://e.example/a1" rfl rfl (by decide) (by decide)]
    rfl
  rw [hs] at h1
  have hreq : req = builtRequest "https://e.example/a1" [] keysEdRsa
      "https://remote.example/inbox" hdrsSample := by
    injection h1 with h1'
    exact h1'.symm
  subst hreq
  refine ⟨h2, h4 ("X-Extra", "1") (by decide) (by decide), ?_⟩
  intro hc
  have := h3 ("content-type", "text/plain") hc (by decide)
  simp at this

/-!
Part 2: the generated reference-resolver accessors.  The definitions below
transcribe the code templates emitted by `generateProperty`
(src/codegen/property.ts): the private fetch helper, the candidate-type
parse loop, the singular and plural resolving accessors with their cached
compacted-document shortcut and in-place memoization, and the identity
accessors.
-/

/-- A JSON value, as inspected by the generated shortcut code. -/
inductive Json where
  | null
  | bool (b : Bool)
  | num (n : Int)
  | str (s : String)
  | arr (xs : List Json)
  | obj (fields : List (String × Json))

/-- Whether a value passes the template guard `x != null && typeof x ===
"object"`: arrays and objects do, null and primitives do not. -/
def Json.nonNullObject : Json → Bool
  | .arr _ => true
  | .obj _ => true
  | _ => false

/-- The template test `key in x`: true only for objects with the key. -/
def Json.hasKey : Json → String → Bool
  | .obj fields, key => fields.any (fun p => p.1 == key)
  | _, _ => false

/-- Object indexing `x[key]` under a guard that the key is present. -/
def Json.getKey : Json → String → Json
  | .obj fields, key =>
    ((fields.find? (fun p => p.1 == key)).map (fun p => p.2)).getD .null
  | _, _ => .null

/-- The template expression `Array.isArray(prop) ? prop[i] : prop`, an
out-of-range index behaving like the null-ish `undefined` under the
subsequent `obj != null` guard. -/
def Json.pick : Json → Nat → Json
  | .arr xs, i => xs.getD i .null
  | j, _ => j

/-- A parsed vocabulary object, modelled by what the resolver reads back:
its `@id` and its type. -/
structure Obj where
  id : Option String
  typeName : String
deriving DecidableEq, Repr

/-- A parse failure: a structural `TypeError` (the distinguished mismatch
kind) or any other error. -/
inductive ParseErr where
  | typeMismatch (msg : String)
  | other (msg : String)
deriving DecidableEq, Repr

/-- Modelled from the spec contract for a candidate type: `fromJsonLd`
(the generated per-type parser, outside the given sources) parses a
document into an instance or reports a failure, a structural mismatch
being a `TypeError`. -/
structure Candidate where
  name : String
  parse : Json → Except ParseErr Obj

/-- Lookup of `range in types` / `types[range]` in the type registry. -/
def lookupType (types : List (String × Candidate)) (r : String) :
    Option Candidate :=
  (types.find? (fun p => p.1 == r)).map (fun p => p.2)

/-- The candidate loop of the generated `#<prop>_fromJsonLd` helper
(src/codegen/property.ts lines 138-155): try each declared range type in
order, skipping range entries absent from the registry; a `TypeError`
means try the next candidate, any other error aborts; exhaustion throws a
`TypeError` naming the whole declared range. -/
def tryCandidates (types : List (String × Candidate)) (doc : Json)
    (allRange : List String) : List String → Except ParseErr Obj
  | [] =>
    .error (.typeMismatch ("Expected an object of any type of: " ++
      String.intercalate ", " allRange))
  | r :: rest =>
    match lookupType types r with
    | none => tryCandidates types doc allRange rest
    | some cand =>
      match cand.parse doc with
      | .ok o => .ok o
      | .error (.typeMismatch _) => tryCandidates types doc allRange rest
      | .error (.other m) => .error (.other m)

/-- The generated `#<prop>_fromJsonLd` helper as a whole. -/
def propFromJsonLd (types : List (String × Candidate)) (range : List String)
    (doc : Json) : Except ParseErr Obj :=
  tryCandidates types doc range range

/-- A property slot: an unresolved reference (a URL) or an inline object. -/
inductive Slot where
  | ref (url : String)
  | inline (o : Obj)
deriving DecidableEq, Repr

/-- The static context of one resolvable property: the type registry, the
declared range, the optional compact term name, and the document loader in
effect (url to document or failure). -/
structure ResolveCtx where
  types : List (String × Candidate)
  range : List String
  compactName : Option String
  loader : String → Except String Json

/-- A resolution failure: the loader failed, or parsing failed. -/
inductive ResolveErr where
  | fetchFailed (url : String) (msg : String)
  | parseFailed (e : ParseErr)
deriving DecidableEq, Repr

/-- The mutable per-object state of one property: the slot array and the
retained compacted source document (`this._cachedJsonLd`). -/
structure PropState where
  slots : List Slot
  cachedJsonLd : Option Json

/-- The generated `#fetch<Prop>` helper (src/codegen/property.ts lines
52-121): invoke the loader with the URL, then parse; on either failure,
return null when `suppressError` is set, else propagate.  The first
component is the list of URLs passed to the Document Loader. -/
def fetchProp (ctx : ResolveCtx) (suppress : Bool) (url : String) :
    List String × Except ResolveErr (Option Obj) :=
  match ctx.loader url with
  | .error msg =>
    ([url], if suppress then .ok none else .error (.fetchFailed url msg))
  | .ok document =>
    match propFromJsonLd ctx.types ctx.range document with
    | .ok o => ([url], .ok (some o))
    | .error e => ([url], if suppress then .ok none else .error (.parseFailed e))

/-- The cached-document shortcut guard of the generated accessors
(src/codegen/property.ts lines 193-207 and 251-266): when the property has
a compact term name and the retained compacted document is an object
carrying the linked-data context marker and the term, select the
sub-document at the given position; it qualifies when it is itself an
object carrying the context marker. -/
def shortcutFragment (ctx : ResolveCtx) (cached : Option Json) (i : Nat) :
    Option Json :=
  match ctx.compactName with
  | none => none
  | some cname =>
    match cached with
    | none => none
    | some c =>
      if c.nonNullObject && c.hasKey "@context" && c.hasKey cname then
        let fragment := (c.getKey cname).pick i
        if fragment.nonNullObject && fragment.hasKey "@context" then
          some fragment
        else none
      else none

/-- The generated singular resolving accessor `get<Prop>`
(src/codegen/property.ts lines 174-212): empty property yields null; a URL
slot is fetched and on success overwritten in place; a non-URL slot is
re-parsed from the qualifying cached fragment at position 0 when present
(errors there propagate unconditionally), else returned as is. -/
def getSingular (ctx : ResolveCtx) (suppress : Bool) (st : PropState) :
    List String × Except ResolveErr (Option Obj) × PropState :=
  match st.slots with
  | [] => ([], .ok none, st)
  | v :: rest =>
    match v with
    | .ref url =>
      match fetchProp ctx suppress url with
      | (tr, .error e) => (tr, .error e, st)
      | (tr, .ok none) => (tr, .ok none, st)
      | (tr, .ok (some o)) =>
        (tr, .ok (some o), { st with slots := Slot.inline o :: rest })
    | .inline o =>
      match shortcutFragment ctx st.cachedJsonLd 0 with
      | some fragment =>
        match propFromJsonLd ctx.types ctx.range fragment with
        | .ok o2 => ([], .ok (some o2), st)
        | .error e => ([], .error (.parseFailed e), st)
      | none => ([], .ok (some o), st)

/-- The loop body of the generated plural resolving accessor `get<Props>`
(src/codegen/property.ts lines 229-272), iterating the live slot array by
index: a URL slot is fetched, a suppressed failure skips the entry leaving
the slot untouched, a success overwrites the slot and yields; a non-URL
slot yields the re-parse of the qualifying cached fragment at the current
position when present (errors there propagate), else the held value.  The
components are the loader trace, the yielded objects with an optional
terminal error, and the final slot array. -/
def getPluralGo (ctx : ResolveCtx) (suppress : Bool) (cached : Option Json) :
    Nat → List Slot →
    List String × (List Obj × Option ResolveErr) × List Slot
  | _, [] => ([], ([], none), [])
  | i, v :: rest =>
    match v with
    | .ref url =>
      match fetchProp ctx suppress url with
      | (tr, .error e) => (tr, ([], some e), v :: rest)
      | (tr, .ok none) =>
        match getPluralGo ctx suppress cached (i + 1) rest with
        | (tr2, (ys, err), rest2) => (tr ++ tr2, (ys, err), v :: rest2)
      | (tr, .ok (some o)) =>
        match getPluralGo ctx suppress cached (i + 1) rest with
        | (tr2, (ys, err), rest2) =>
          (tr ++ tr2, (o :: ys, err), Slot.inline o :: rest2)
    | .inline o =>
      match shortcutFragment ctx cached i with
      | some fragment =>
        match propFromJsonLd ctx.types ctx.range fragment with
        | .ok o2 =>
          match getPluralGo ctx suppress cached (i + 1) rest with
          | (tr2, (ys, err), rest2) => (tr2, (o2 :: ys, err), v :: rest2)
        | .error e => ([], ([], some (.parseFailed e)), v :: rest)
      | none =>
        match getPluralGo ctx suppress cached (i + 1) rest with
        | (tr2, (ys, err), rest2) => (tr2, (o :: ys, err), v :: rest2)

/-- The generated plural resolving accessor `get<Props>` as a whole. -/
def getPlural (ctx : ResolveCtx) (suppress : Bool) (st : PropState) :
    List String × (List Obj × Option ResolveErr) × PropState :=
  match getPluralGo ctx suppress st.cachedJsonLd 0 st.slots with
  | (tr, out, slots2) => (tr, out, { st with slots := slots2 })

/-- The per-slot id of the generated identity accessors: a URL slot
contributes the URL, an inline slot the held object's id. -/
def slotId : Slot → Option String
  | .ref url => some url
  | .inline o => o.id

/-- The generated singular identity accessor `get <prop>Id`
(src/codegen/property.ts lines 165-171). -/
def propIdSingular (slots : List Slot) : Option String :=
  match slots with
  | [] => none
  | v :: _ =>
    match v with
    | .ref url => some url
    | .inline o => o.id

/-- The generated plural identity accessor `get <prop>Ids`
(src/codegen/property.ts lines 221-226): map each slot to its URL or held
id, then drop the nulls. -/
def propIdsPlural (slots : List Slot) : List String :=
  (slots.map (fun v =>
    match v with
    | Slot.ref url => some url
    | Slot.inline o => o.id)).reduceOption

theorem fetchProp_fst (ctx : ResolveCtx) (suppress : Bool) (url : String) :
    (fetchProp ctx suppress url).1 = [url] := by
  rw [fetchProp]
  cases hl : ctx.loader url with
  | error msg => simp
  | ok document =>
    cases hp : propFromJsonLd ctx.types ctx.range document <;> simp [hp]

/-- A range entry the candidate loop skips: its registry entry, when
present, reports a structural type mismatch on this document. -/
def skipsCandidate (types : List (String × Candidate)) (doc : Json)
    (r : String) : Prop :=
  ∀ cand, lookupType types r = some cand →
    ∃ m, cand.parse doc = .error (.typeMismatch m)

theorem tryCandidates_skip (types : List (String × Candidate)) (doc : Json)
    (allRange : List String) :
    ∀ (pre l2 : List String), (∀ r ∈ pre, skipsCandidate types doc r) →
      tryCandidates types doc allRange (pre ++ l2) =
        tryCandidates types doc allRange l2 := by
  intro pre
  induction pre with
  | nil => intro l2 _; rfl
  | cons r rest ih =>
    intro l2 hskip
    rw [List.cons_append, tryCandidates]
    cases hl : lookupType types r with
    | none =>
      simp only [hl]
      exact ih l2 (fun r' h => hskip r' (by simp [h]))
    | some cand =>
      obtain ⟨m, hm⟩ := hskip r (by simp) cand hl
      simp only [hl, hm]
      exact ih l2 (fun r' h => hskip r' (by simp [h]))

/-- C7: the candidate types are tried in declared order: after any prefix
of mismatching (or unregistered) candidates, a successful parse returns
its instance and a non-mismatch failure aborts with that failure; when
every candidate mismatches or is unregistered, the result is a type
mismatch whose message concatenates the whole declared range, which
contains every attempted candidate type. -/
theorem C7_candidate_order (types : List (String × Candidate)) (doc : Json) :
    (∀ (pre : List String) (r : String) (post : List String)
        (cand : Candidate) (o : Obj),
      (∀ r' ∈ pre, skipsCandidate types doc r') →
      lookupType types r = some cand → cand.parse doc = .ok o →
      propFromJsonLd types (pre ++ r :: post) doc = .ok o) ∧
    (∀ (pre : List String) (r : String) (post : List String)
        (cand : Candidate) (m : String),
      (∀ r' ∈ pre, skipsCandidate types doc r') →
      lookupType types r = some cand →
      cand.parse doc = .error (.other m) →
      propFromJsonLd types (pre ++ r :: post) doc = .error (.other m)) ∧
    (∀ range : List String, (∀ r ∈ range, skipsCandidate types doc r) →
      propFromJsonLd types range doc =
        .error (.typeMismatch ("Expected an object of any type of: " ++
          String.intercalate ", " range))) := by
  refine ⟨?_, ?_, ?_⟩
  · intro pre r post cand o hskip hl hp
    rw [propFromJsonLd, tryCandidates_skip types doc _ pre (r :: post) hskip,
      tryCandidates]
    simp only [hl, hp]
  · intro pre r post cand m hskip hl hp
    rw [propFromJsonLd, tryCandidates_skip types doc _ pre (r :: post) hskip,
      tryCandidates]
    simp only [hl, hp]
  · intro range hskip
    rw [propFromJsonLd]
    have h := tryCandidates_skip types doc range range [] (by simpa using hskip)
    rw [List.append_nil] at h
    rw [h, tryCandidates]

/-- C9: the identity accessors are pure functions of the slot array (they
take no loader and touch no state, so they perform no I/O and trigger no
resolution): the singular accessor returns null on an empty property, the
URL for a reference slot, and the held object's id for an inline slot; the
plural accessor is the per-slot id map with nulls dropped, and is
compositional over concatenation. -/
theorem C9_identity_accessors :
    propIdSingular [] = none ∧
    (∀ (url : String) (rest : List Slot),
      propIdSingular (Slot.ref url :: rest) = some url) ∧
    (∀ (o : Obj) (rest : List Slot),
      propIdSingular (Slot.inline o :: rest) = o.id) ∧
    (∀ slots : List Slot, propIdsPlural slots = slots.filterMap slotId) ∧
    (∀ xs ys : List Slot,
      propIdsPlural (xs ++ ys) = propIdsPlural xs ++ propIdsPlural ys) := by
  have hfun : (fun v => match v with
      | Slot.ref url => some url
      | Slot.inline o => o.id) = slotId := by
    funext v; cases v <;> rfl
  have hplural : ∀ slots : List Slot,
      propIdsPlural slots = slots.filterMap slotId := by
    intro slots
    rw [propIdsPlural, hfun, List.reduceOption, List.filterMap_map]
    rfl
  refine ⟨rfl, fun url rest => rfl, fun o rest => rfl, hplural, ?_⟩
  intro xs ys
  rw [hplural, hplural, hplural, List.filterMap_append]

/-- C5: resolution of a reference slot is atomic and memoizing: a
successful singular resolution replaces the slot in place with the
resolved inline object and returns it, after which a second resolution
invokes the Document Loader zero additional times; a suppressed loader
or parse failure returns null and leaves the state untouched; and the
plural accessor over three references whose middle fetch fails suppressed
yields exactly the first and third objects in slot order, memoizes those
two slots, and raises nothing. -/
theorem C5_resolution_atomic_memoizing :
    (∀ (ctx : ResolveCtx) (suppress : Bool) (url : String) (rest : List Slot)
        (cached : Option Json) (doc : Json) (o : Obj),
      ctx.loader url = .ok doc →
      propFromJsonLd ctx.types ctx.range doc = .ok o →
      getSingular ctx suppress ⟨Slot.ref url :: rest, cached⟩ =
        ([url], .ok (some o), ⟨Slot.inline o :: rest, cached⟩) ∧
      (getSingular ctx suppress ⟨Slot.inline o :: rest, cached⟩).1 = []) ∧
    (∀ (ctx : ResolveCtx) (url : String) (rest : List Slot)
        (cached : Option Json) (msg : String),
      ctx.loader url = .error msg →
      getSingular ctx true ⟨Slot.ref url :: rest, cached⟩ =
        ([url], .ok none, ⟨Slot.ref url :: rest, cached⟩)) ∧
    (∀ (ctx : ResolveCtx) (url : String) (rest : List Slot)
        (cached : Option Json) (doc : Json) (e : ParseErr),
      ctx.loader url = .ok doc →
      propFromJsonLd ctx.types ctx.range doc = .error e →
      getSingular ctx true ⟨Slot.ref url :: rest, cached⟩ =
        ([url], .ok none, ⟨Slot.ref url :: rest, cached⟩)) ∧
    (∀ (ctx : ResolveCtx) (u1 u2 u3 : String) (d1 d3 : Json) (o1 o3 : Obj)
        (msg : String),
      ctx.loader u1 = .ok d1 →
      propFromJsonLd ctx.types ctx.range d1 = .ok o1 →
      ctx.loader u2 = .error msg →
      ctx.loader u3 = .ok d3 →
      propFromJsonLd ctx.types ctx.range d3 = .ok o3 →
      getPlural ctx true ⟨[Slot.ref u1, Slot.ref u2, Slot.ref u3], none⟩ =
        ([u1, u2, u3], ([o1, o3], none),
         ⟨[Slot.inline o1, Slot.ref u2, Slot.inline o3], none⟩)) := by
  refine ⟨?_, ?_, ?_, ?_⟩
  · intro ctx suppress url rest cached doc o hl hp
    constructor
    · rw [getSingular]
      simp only [fetchProp, hl, hp]
    · rw [getSingular]
      cases hsf : shortcutFragment ctx cached 0 with
      | none => simp [hsf]
      | some fragment =>
        cases hq : propFromJsonLd ctx.types ctx.range fragment <;>
          simp [hsf, hq]
  · intro ctx url rest cached msg hl
    rw [getSingular]
    simp [fetchProp, hl]
  · intro ctx url rest cached doc e hl hp
    rw [getSingular]
    simp [fetchProp, hl, hp]
  · intro ctx u1 u2 u3 d1 d3 o1 o3 msg h1 hp1 h2 h3 hp3
    rw [getPlural]
    simp only [getPluralGo, fetchProp, h1, hp1, h2, h3, hp3, if_pos rfl]
    rfl

/-- A sample candidate type parsing strings and objects with an id. -/
def candT : Candidate :=
  { name := "T",
    parse := fun d =>
      match d with
      | Json.str s => .ok { id := some s, typeName := "T" }
      | Json.obj fields =>
        match fields.find? (fun p => p.1 == "id") with
        | some (_, Json.str s) => .ok { id := some s, typeName := "T" }
        | _ => .error (.typeMismatch "no id")
      | _ => .error (.typeMismatch "not a T") }

/-- A sample resolver context whose loader serves exactly one URL. -/
def ctxShortcut : ResolveCtx :=
  { types := [("T", candT)], range := ["T"],
    compactName := some "attributedTo",
    loader := fun u =>
      if u == "https://x.example/1" then .ok (Json.str "remote")
      else .error "unreachable" }

/-- A sample retained compacted document with a contexted inline
sub-document at the property position. -/
def cachedSample : Json :=
  Json.obj [("@context", Json.str "https://www.w3.org/ns/activitystreams"),
    ("attributedTo",
      Json.obj [("@context", Json.str "https://www.w3.org/ns/activitystreams"),
        ("id", Json.str "inline")])]

/-- C6 counterexample: the slot holds a reference and the parent retains a
compacted document whose inline sub-document at the property position
carries its own context marker, so by the claim the resolver should parse
that fragment and skip the loader; the generated accessor nevertheless
invokes the Document Loader with the reference URL and returns the parse
of the fetched document, not of the fragment. -/
theorem C6_counterexample :
    shortcutFragment ctxShortcut (some cachedSample) 0 =
      some (Json.obj [("@context",
        Json.str "https://www.w3.org/ns/activitystreams"),
        ("id", Json.str "inline")]) ∧
    (getSingular ctxShortcut false
        ⟨[Slot.ref "https://x.example/1"], some cachedSample⟩).1 =
      ["https://x.example/1"] ∧
    (getSingular ctxShortcut false
        ⟨[Slot.ref "https://x.example/1"], some cachedSample⟩).2.1 =
      .ok (some { id := some "remote", typeName := "T" }) :=
  ⟨rfl, rfl, rfl⟩

/-- C6 (amended): resolving a reference slot always invokes the Document
Loader exactly once with the reference URL, whatever the retained
compacted document holds; the cached-document shortcut instead governs
slots already holding an inline value: there the loader is never invoked
and the state is never written, the qualifying contexted fragment at the
property position is re-parsed and its result returned when present, and
the held value is returned unchanged otherwise. -/
theorem C6_amended_shortcut_applies_to_inline_slots (ctx : ResolveCtx)
    (suppress : Bool) (rest : List Slot) (cached : Option Json) :
    (∀ url, (getSingular ctx suppress ⟨Slot.ref url :: rest, cached⟩).1 =
      [url]) ∧
    (∀ o : Obj, (getSingular ctx suppress ⟨Slot.inline o :: rest, cached⟩).1 =
      [] ∧
      (getSingular ctx suppress ⟨Slot.inline o :: rest, cached⟩).2.2 =
        ⟨Slot.inline o :: rest, cached⟩ ∧
      (∀ fragment, shortcutFragment ctx cached 0 = some fragment →
        (getSingular ctx suppress ⟨Slot.inline o :: rest, cached⟩).2.1 =
          (match propFromJsonLd ctx.types ctx.range fragment with
           | .ok o2 => .ok (some o2)
           | .error e => .error (.parseFailed e))) ∧
      (shortcutFragment ctx cached 0 = none →
        (getSingular ctx suppress ⟨Slot.inline o :: rest, cached⟩).2.1 =
          .ok (some o))) := by
  constructor
  · intro url
    have hft := fetchProp_fst ctx suppress url
    rw [getSingular]
    rcases hf : fetchProp ctx suppress url with ⟨tr, res⟩
    have htr : tr = [url] := by rw [← hft, hf]
    subst htr
    cases res with
    | error e => simp [hf]
    | ok oo => cases oo <;> simp [hf]
  · intro o
    refine ⟨?_, ?_, ?_, ?_⟩
    · rw [getSingular]
      cases hsf : shortcutFragment ctx cached 0 with
      | none => simp [hsf]
      | some fragment =>
        cases hq : propFromJsonLd ctx.types ctx.range fragment <;>
          simp [hsf, hq]
    · rw [getSingular]
      cases hsf : shortcutFragment ctx cached 0 with
      | none => simp [hsf]
      | some fragment =>
        cases hq : propFromJsonLd ctx.types ctx.range fragment <;>
          simp [hsf, hq]
    · intro fragment hsf
      rw [getSingular]
      cases hq : propFromJsonLd ctx.types ctx.range fragment <;>
        simp [hsf, hq]
    · intro hsf
      rw [getSingular]
      simp [hsf]

/-- A sample resolver context whose loader serves two of three URLs. -/
def ctxPlural : ResolveCtx :=
  { types := [("T", candT)], range := ["T"], compactName := none,
    loader := fun u =>
      if u == "https://x.example/a" then .ok (Json.str "a")
      else if u == "https://x.example/c" then .ok (Json.str "c")
      else .error "down" }

theorem C5_witness :
    getSingular ctxPlural true ⟨[Slot.ref "https://x.example/a"], none⟩ =
      (["https://x.example/a"],
       .ok (some { id := some "a", typeName := "T" }),
       ⟨[Slot.inline { id := some "a", typeName := "T" }], none⟩) ∧
    (getSingular ctxPlural true
      ⟨[Slot.inline { id := some "a", typeName := "T" }], none⟩).1 = [] ∧
    getPlural ctxPlural true
      ⟨[Slot.ref "https://x.example/a", Slot.ref "https://x.example/b",
        Slot.ref "https://x.example/c"], none⟩ =
      (["https://x.example/a", "https://x.example/b", "https://x.example/c"],
       ([{ id := some "a", typeName := "T" },
         { id := some "c", typeName := "T" }], none),
       ⟨[Slot.inline { id := some "a", typeName := "T" },
         Slot.ref "https://x.example/b",
         Slot.inline { id := some "c", typeName := "T" }], none⟩) := by
  have h := C5_resolution_atomic_memoizing
  have h1 := h.1 ctxPlural true "https://x.example/a" [] none (Json.str "a")
    { id := some "a", typeName := "T" } rfl rfl
  have h4 := h.2.2.2 ctxPlural "https://x.example/a" "https://x.example/b"
    "https://x.example/c" (Json.str "a") (Json.str "c")
    { id := some "a", typeName := "T" } { id := some "c", typeName := "T" }
    "down" rfl rfl rfl rfl rfl
  exact ⟨h1.1, h1.2, h4⟩

theorem C6_amended_witness :
    (getSingular ctxShortcut false
      ⟨[Slot.ref "https://x.example/1"], some cachedSample⟩).1 =
      ["https://x.example/1"] ∧
    (getSingular ctxShortcut false
      ⟨[Slot.inline { id := some "held", typeName := "T" }],
       some cachedSample⟩).1 = [] ∧
    (getSingular ctxShortcut false
      ⟨[Slot.inline { id := some "held", typeName := "T" }],
       some cachedSample⟩).2.1 =
      .ok (some { id := some "inline", typeName := "T" }) := by
  have h := C6_amended_shortcut_applies_to_inline_slots ctxShortcut false []
    (some cachedSample)
  refine ⟨h.1 "https://x.example/1",
    (h.2 { id := some "held", typeName := "T" }).1, ?_⟩
  have h3 := (h.2 { id := some "held", typeName := "T" }).2.2.1
    (Json.obj [("@context", Json.str "https://www.w3.org/ns/activitystreams"),
      ("id", Json.str "inline")]) rfl
  rw [h3]
  rfl

/-- A sample candidate that structurally mismatches every document. -/
def candMismatchW : Candidate :=
  { name := "A", parse := fun _ => .error (.typeMismatch "no") }

/-- A sample candidate that parses every document. -/
def candOkW : Candidate :=
  { name := "B", parse := fun _ => .ok { id := some "b", typeName := "B" } }

/-- A sample candidate that fails with a non-mismatch error. -/
def candOtherW : Candidate :=
  { name := "E", parse := fun _ => .error (.other "boom") }

/-- A sample candidate registry for the parse-order witness. -/
def typesW : List (String × Candidate) :=
  [("A", candMismatchW), ("B", candOkW), ("E", candOtherW)]

theorem C7_witness :
    propFromJsonLd typesW ["A", "B", "C"] Json.null =
      .ok { id := some "b", typeName := "B" } ∧
    propFromJsonLd typesW ["A", "E", "B"] Json.null =
      .error (.other "boom") ∧
    propFromJsonLd typesW ["A", "Z"] Json.null =
      .error (.typeMismatch ("Expected an object of any type of: " ++
        String.intercalate ", " ["A", "Z"])) := by
  have h := C7_candidate_order typesW Json.null
  have hskipA : ∀ r' ∈ ["A"], skipsCandidate typesW Json.null r' := by
    intro r' hr'
    have hr : r' = "A" := by simpa using hr'
    subst hr
    intro cand hc
    have hl : lookupType typesW "A" = some candMismatchW := rfl
    rw [hl] at hc
    injection hc with hc
    subst hc
    exact ⟨"no", rfl⟩
  have hskipAZ : ∀ r' ∈ ["A", "Z"], skipsCandidate typesW Json.null r' := by
    intro r' hr'
    rcases List.mem_cons.mp hr' with hr | hr
    · subst hr
      intro cand hc
      have hl : lookupType typesW "A" = some candMismatchW := rfl
      rw [hl] at hc
      injection hc with hc
      subst hc
      exact ⟨"no", rfl⟩
    · have hz : r' = "Z" := by simpa using hr
      subst hz
      intro cand hc
      have hl : lookupType typesW "Z" = none := rfl
      rw [hl] at hc
      exact Option.noConfusion hc
  exact ⟨h.1 ["A"] "B" ["C"] candOkW { id := some "b", typeName := "B" }
      hskipA rfl rfl,
    h.2.1 ["A"] "E" ["B"] candOtherW "boom" hskipA rfl rfl,
    h.2.2 ["A", "Z"] hskipAZ⟩

end Fedify
